import Mathlib

/-!
Shallow embedding of the `tyrminell` terminal escape-sequence encoder.

Serialization through `core::fmt::Write` sinks is modelled by pure functions
returning the list of characters written (`List Char`); byte-level output
(`std::io::Write` in `fe_seq.rs`) is modelled as `List Nat` with each element
a byte value.  `u8` payloads are modelled as `Nat`, `i8` as `Int`; where the
source can panic (checked arithmetic overflow of `i8::abs`), the model
returns `Option` with `none` standing for the panic.
-/

/-- Decimal rendering of a natural number, as Rust's `Display` for unsigned
integers produces (no leading zeros, `"0"` for zero). -/
def natChars (n : Nat) : List Char := (Nat.repr n).toList

/-- `ESC_STR` from `fe_seq.rs`: the ASCII escape character. -/
def escChar : Char := '\x1b'

/-- The escape byte `0x1B`. -/
def escByte : Nat := 0x1b

namespace Csi

/-- `Csi::INTRO_BYTE`: the ASCII byte of the control sequence introducer. -/
def INTRO_BYTE : Nat := 0x5b

/-- `Csi::write_begin`: the characters written for the beginning of a CSI
sequence (`ESC` then the introducer). -/
def write_begin : List Char := [escChar, '[']

/-- `Csi::FINAL_STR`: the CSI sequence final string used by SGR encoders. -/
def FINAL_STR : List Char := ['m']

end Csi

/-- `SgrColor` from `sgr.rs`: parameter payload of the extended foreground,
background and underline-color SGR codes. -/
inductive SgrColor where
  | Table (n : Nat)
  | Rgb (r g b : Nat)
deriving DecidableEq, Repr

/-- `Display for SgrColor` from `sgr.rs`: `5;<n>` for a table index and
`2;<r>;<g>;<b>` for true color. -/
def SgrColor.displayChars : SgrColor → List Char
  | .Table n => ['5', ';'] ++ natChars n
  | .Rgb r g b =>
      ['2', ';'] ++ natChars r ++ [';'] ++ natChars g ++ [';'] ++ natChars b

/-- `Sgr` from `sgr.rs`: Select Graphic Rendition CSI sequence parameters. -/
inductive Sgr where
  | Reset
  | WeightBoldOn
  | WeightThinOn
  | ItalicOn
  | UnderlineSingle
  | BlinkSlow
  | BlinkRapid
  | Invert
  | ConcealOn
  | StrikethroughOn
  | FontPrimary
  | Font1 | Font2 | Font3
  | Font4 | Font5 | Font6
  | Font7 | Font8 | Font9
  | Fraktur
  | UnderlineDouble
  | WeightAllOff
  | ItalicOff
  | UnderlineNone
  | BlinkNone
  | ProportionalSpacingOn
  | ReversedOff
  | ConcealOff
  | StrikethroughOff
  | Foreground1 | Foreground2 | Foreground3 | Foreground4
  | Foreground5 | Foreground6 | Foreground7 | Foreground8
  | Foreground (color : SgrColor)
  | ForegroundDefault
  | Background1 | Background2 | Background3 | Background4
  | Background5 | Background6 | Background7 | Background8
  | Background (color : SgrColor)
  | BackgroundDefault
  | ProportionalSpacingOff
  | FrameFramed
  | FrameEncircled
  | OverlinedOn
  | FrameNone
  | OverlinedOff
  | UnderlineColor (color : SgrColor)
  | UnderlineColorDefault

/-- `Sgr::write_params_to` from `sgr.rs`: the characters written for the bare
numeric SGR parameter (no CSI prefix or final byte). -/
def Sgr.write_params_to : Sgr → List Char
  | .Reset => ['0']
  | .WeightBoldOn => ['1']
  | .WeightThinOn => ['2']
  | .ItalicOn => ['3']
  | .UnderlineSingle => ['4']
  | .BlinkSlow => ['5']
  | .BlinkRapid => ['6']
  | .Invert => ['7']
  | .ConcealOn => ['8']
  | .StrikethroughOn => ['9']
  | .FontPrimary => ['1', '0']
  | .Font1 => ['1', '1']
  | .Font2 => ['1', '2']
  | .Font3 => ['1', '3']
  | .Font4 => ['1', '4']
  | .Font5 => ['1', '5']
  | .Font6 => ['1', '6']
  | .Font7 => ['1', '7']
  | .Font8 => ['1', '8']
  | .Font9 => ['1', '9']
  | .Fraktur => ['2', '0']
  | .UnderlineDouble => ['2', '1']
  | .WeightAllOff => ['2', '2']
  | .ItalicOff => ['2', '3']
  | .UnderlineNone => ['2', '4']
  | .BlinkNone => ['2', '5']
  | .ProportionalSpacingOn => ['2', '6']
  | .ReversedOff => ['2', '7']
  | .ConcealOff => ['2', '8']
  | .StrikethroughOff => ['2', '9']
  | .Foreground1 => ['3', '0']
  | .Foreground2 => ['3', '1']
  | .Foreground3 => ['3', '2']
  | .Foreground4 => ['3', '3']
  | .Foreground5 => ['3', '4']
  | .Foreground6 => ['3', '5']
  | .Foreground7 => ['3', '6']
  | .Foreground8 => ['3', '7']
  | .Foreground color => ['3', '8', ';'] ++ color.displayChars
  | .ForegroundDefault => ['3', '9']
  | .Background1 => ['4', '0']
  | .Background2 => ['4', '1']
  | .Background3 => ['4', '2']
  | .Background4 => ['4', '3']
  | .Background5 => ['4', '4']
  | .Background6 => ['4', '5']
  | .Background7 => ['4', '6']
  | .Background8 => ['4', '7']
  | .Background color => ['4', '8', ';'] ++ color.displayChars
  | .BackgroundDefault => ['4', '9']
  | .ProportionalSpacingOff => ['5', '0']
  | .FrameFramed => ['5', '1']
  | .FrameEncircled => ['5', '2']
  | .OverlinedOn => ['5', '3']
  | .FrameNone => ['5', '4']
  | .OverlinedOff => ['5', '5']
  | .UnderlineColor color => ['5', '8', ';'] ++ color.displayChars
  | .UnderlineColorDefault => ['5', '9']

/-- `Weight` from `helpers.rs`. -/
inductive Weight where
  | Bold
  | Thin
  | Regular
deriving DecidableEq, Repr

/-- `Weight::into_sgr` from `helpers.rs`. -/
def Weight.into_sgr : Weight → Sgr
  | .Bold => Sgr.WeightBoldOn
  | .Thin => Sgr.WeightThinOn
  | .Regular => Sgr.WeightAllOff

/-- `Underline` from `helpers.rs`. -/
inductive Underline where
  | Single
  | Double
  | None
deriving DecidableEq, Repr

/-- `Underline::into_sgr` from `helpers.rs`. -/
def Underline.into_sgr : Underline → Sgr
  | .None => Sgr.UnderlineNone
  | .Single => Sgr.UnderlineSingle
  | .Double => Sgr.UnderlineDouble

/-- `Italic` from `helpers.rs`. -/
inductive Italic where
  | Off
  | On
deriving DecidableEq, Repr

/-- `Italic::into_sgr` from `helpers.rs`. -/
def Italic.into_sgr : Italic → Sgr
  | .On => Sgr.ItalicOn
  | .Off => Sgr.ItalicOff

/-- `Strikethrough` from `helpers.rs`. -/
inductive Strikethrough where
  | Off
  | On
deriving DecidableEq, Repr

/-- `Strikethrough::into_sgr` from `helpers.rs`. -/
def Strikethrough.into_sgr : Strikethrough → Sgr
  | .On => Sgr.StrikethroughOn
  | .Off => Sgr.StrikethroughOff

/-- `Color` from `helpers.rs`: foreground or background color change. -/
inductive Color where
  | Reset
  | Table (n : Nat)
  | Rgb (r g b : Nat)
deriving DecidableEq, Repr

/-- `Color::into_foreground` from `helpers.rs`. -/
def Color.into_foreground : Color → Sgr
  | .Reset => Sgr.ForegroundDefault
  | .Table n => Sgr.Foreground (SgrColor.Table n)
  | .Rgb r g b => Sgr.Foreground (SgrColor.Rgb r g b)

/-- `Color::into_background` from `helpers.rs`. -/
def Color.into_background : Color → Sgr
  | .Reset => Sgr.BackgroundDefault
  | .Table n => Sgr.Background (SgrColor.Table n)
  | .Rgb r g b => Sgr.Background (SgrColor.Rgb r g b)

/-- `EraseDisplay` from `helpers.rs`: mode of erasing characters on the
display. -/
inductive EraseDisplay where
  | CurToEnd
  | CurToBegin
  | All
  | XtermAllNoScrollback
deriving DecidableEq, Repr

/-- `Display for EraseDisplay` from `helpers.rs`: CSI prefix, the mode digit,
final byte `J`. -/
def EraseDisplay.fmt (e : EraseDisplay) : List Char :=
  Csi.write_begin ++
    (match e with
     | .CurToEnd => ['0']
     | .CurToBegin => ['1']
     | .All => ['2']
     | .XtermAllNoScrollback => ['3']) ++ ['J']

/-- `EraseLine` from `helpers.rs`: mode of erasing characters in a line. -/
inductive EraseLine where
  | CurToEnd
  | CurToBegin
  | All
deriving DecidableEq, Repr

/-- `Display for EraseLine` from `helpers.rs`. -/
def EraseLine.fmt (e : EraseLine) : List Char :=
  Csi.write_begin ++
    (match e with
     | .CurToEnd => ['0']
     | .CurToBegin => ['1']
     | .All => ['2']) ++ ['K']

/-- The absolute value computed by Rust's `i8::abs` under checked-arithmetic
semantics: overflow at `i8::MIN` (the absolute value 128 is not representable
in `i8`) is a panic, modelled as `none`. -/
def i8_abs (delta : Int) : Option Nat :=
  if delta = -128 then none else some delta.natAbs

/-- `move_cursor_delta` from `helpers.rs`: CSI prefix, the decimal rendering
of `delta.abs()`, then `neg` if the delta is negative and `pos` otherwise.
`none` models the panic of `delta.abs()` at `i8::MIN`. -/
def move_cursor_delta (neg pos : Char) (delta : Int) : Option (List Char) :=
  (i8_abs delta).map fun a =>
    Csi.write_begin ++ natChars a ++ [if delta < 0 then neg else pos]

/-- `Movement` from `helpers.rs`.  `Relative` deltas are `Option<i8>`
(modelled as `Option Int` with values in `[-128, 127]`); `Absolute` rows and
columns are `NonZeroU8` (modelled as `Nat` with values in `[1, 255]`). -/
inductive Movement where
  | Relative (rows columns : Option Int)
  | Absolute (row column : Nat)
deriving DecidableEq, Repr

/-- `Display for Movement` from `helpers.rs`: for `Relative`, one
`move_cursor_delta` sequence per set axis (rows with `A`/`B`, then columns
with `D`/`C`); for `Absolute`, CSI prefix, `<row>;<column>`, then the final
string `"J"` exactly as the source writes it. -/
def Movement.fmt : Movement → Option (List Char)
  | .Relative rows columns => do
      let a ← match rows with
        | some x => move_cursor_delta 'A' 'B' x
        | none => pure []
      let b ← match columns with
        | some x => move_cursor_delta 'D' 'C' x
        | none => pure []
      pure (a ++ b)
  | .Absolute row column =>
      some (Csi.write_begin ++ natChars row ++ [';'] ++ natChars column ++ ['J'])

/-- `StateChange` from `helpers.rs`: up to six optional attribute changes. -/
structure StateChange where
  weight : Option Weight
  italic : Option Italic
  underline : Option Underline
  strikethrough : Option Strikethrough
  foreground : Option Color
  background : Option Color
deriving DecidableEq, Repr

/-- `opt_replace_some` from `helpers.rs`. -/
def opt_replace_some {T : Type} (option : Option T) (value : T) : Option T :=
  match option with
  | some _ => some value
  | none => none

namespace StateChange

/-- `StateChange::new` from `helpers.rs`: all fields unset. -/
def new : StateChange :=
  { weight := none
    italic := none
    underline := none
    strikethrough := none
    foreground := none
    background := none }

/-- `StateChange::resetter` from `helpers.rs`. -/
def resetter (s : StateChange) : StateChange :=
  { weight := opt_replace_some s.weight Weight.Regular
    italic := opt_replace_some s.italic Italic.Off
    underline := opt_replace_some s.underline Underline.None
    strikethrough := opt_replace_some s.strikethrough Strikethrough.Off
    foreground := opt_replace_some s.foreground Color.Reset
    background := opt_replace_some s.background Color.Reset }

/-- `StateChange::with_weight` from `helpers.rs`. -/
def with_weight (s : StateChange) (x : Weight) : StateChange :=
  { s with weight := some x }

/-- `StateChange::with_italic` from `helpers.rs`. -/
def with_italic (s : StateChange) (x : Italic) : StateChange :=
  { s with italic := some x }

/-- `StateChange::with_underline` from `helpers.rs`. -/
def with_underline (s : StateChange) (x : Underline) : StateChange :=
  { s with underline := some x }

/-- `StateChange::with_strikethrough` from `helpers.rs`. -/
def with_strikethrough (s : StateChange) (x : Strikethrough) : StateChange :=
  { s with strikethrough := some x }

/-- `StateChange::with_foreground` from `helpers.rs`. -/
def with_foreground (s : StateChange) (x : Color) : StateChange :=
  { s with foreground := some x }

/-- `StateChange::with_background` from `helpers.rs`. -/
def with_background (s : StateChange) (x : Color) : StateChange :=
  { s with background := some x }

/-- One `if let Some(..)` block of `Display for StateChange` in `helpers.rs`
for the italic, underline, strikethrough and foreground fields: given the
field's parameter characters (or `none` when the field is unset), the sink
contents and the `is_first` flag, it reproduces the source exactly —
`if is_first` (sic) write `";"` and clear the flag, then write the
parameters. -/
def fieldStep (params : Option (List Char)) (fb : List Char × Bool) :
    List Char × Bool :=
  match params with
  | some p =>
      let fb := if fb.2 then (fb.1 ++ [';'], false) else fb
      (fb.1 ++ p, fb.2)
  | none => fb

/-- The final `if let Some(color) = self.background` block of
`Display for StateChange` in `helpers.rs`: like `fieldStep` but, as in the
source, the `is_first` flag is not cleared. -/
def backgroundStep (params : Option (List Char)) (fb : List Char × Bool) :
    List Char × Bool :=
  match params with
  | some p =>
      let f := if fb.2 then fb.1 ++ [';'] else fb.1
      (f ++ p, fb.2)
  | none => fb

/-- `Display for StateChange` from `helpers.rs`, as explicit state passing:
CSI prefix; the weight block (`22`, and for bold or thin a `;` and the on
code); then the five remaining field blocks threading the `is_first` flag;
finally `Csi::FINAL_STR`. -/
def fmt (s : StateChange) : List Char :=
  let f := Csi.write_begin
  let f := match s.weight with
    | some Weight.Bold =>
        f ++ Sgr.WeightAllOff.write_params_to ++ [';'] ++
          Sgr.WeightBoldOn.write_params_to
    | some Weight.Thin =>
        f ++ Sgr.WeightAllOff.write_params_to ++ [';'] ++
          Sgr.WeightThinOn.write_params_to
    | some Weight.Regular => f ++ Sgr.WeightAllOff.write_params_to
    | none => f
  let fb := (f, true)
  let fb := fieldStep (s.italic.map fun state => state.into_sgr.write_params_to) fb
  let fb := fieldStep
    (s.underline.map fun underline =>
      (match underline with
       | Underline.None => Sgr.UnderlineNone
       | Underline.Single => Sgr.UnderlineSingle
       | Underline.Double => Sgr.UnderlineDouble).write_params_to) fb
  let fb := fieldStep
    (s.strikethrough.map fun state => state.into_sgr.write_params_to) fb
  let fb := fieldStep
    (s.foreground.map fun color =>
      (match color with
       | Color.Reset => Sgr.ForegroundDefault
       | Color.Table n => Sgr.Foreground (SgrColor.Table n)
       | Color.Rgb r g b => Sgr.Foreground (SgrColor.Rgb r g b)).write_params_to) fb
  let fb := backgroundStep
    (s.background.map fun color =>
      (match color with
       | Color.Reset => Sgr.BackgroundDefault
       | Color.Table n => Sgr.Background (SgrColor.Table n)
       | Color.Rgb r g b => Sgr.Background (SgrColor.Rgb r g b)).write_params_to) fb
  fb.1 ++ Csi.FINAL_STR

end StateChange

/-!
Byte-range wrapper kinds from `lib.rs` (the `byte_wrapper!` macro).  Each
instantiation only differs in its validity pattern, so the slice conversion
is modelled once, generic over the `is_byte_valid` predicate; the concrete
predicates of the kinds instantiated in the crate follow.
-/

/-- The validity pattern `0x30..=0x3f` of `CsiParam` in `csi.rs`. -/
def CsiParam.is_byte_valid (byte : Nat) : Bool :=
  0x30 ≤ byte && byte ≤ 0x3f

/-- The validity pattern `0x20..=0x2f` of `CsiInter` in `csi.rs`. -/
def CsiInter.is_byte_valid (byte : Nat) : Bool :=
  0x20 ≤ byte && byte ≤ 0x2f

/-- The validity pattern `0x40..=0x7e` of `CsiFinal` in `csi.rs`. -/
def CsiFinal.is_byte_valid (byte : Nat) : Bool :=
  0x40 ≤ byte && byte ≤ 0x7e

/-- The validity pattern `0x08..=0x0d | 0x20..=0x7e` of `DcsChar` in
`fe_seq.rs`. -/
def DcsChar.is_byte_valid (byte : Nat) : Bool :=
  (0x08 ≤ byte && byte ≤ 0x0d) || (0x20 ≤ byte && byte ≤ 0x7e)

/-- The validity pattern `0x0..=0x96 | 0x98..=0x9b | 0x9d..` of `SosChar` in
`fe_seq.rs` (bytes range over `0..=255`). -/
def SosChar.is_byte_valid (byte : Nat) : Bool :=
  byte ≤ 0x96 || (0x98 ≤ byte && byte ≤ 0x9b) || (0x9d ≤ byte && byte ≤ 0xff)

/-- The validity pattern `0x08..=0x0d` of `FormatEffector` in `fe_seq.rs`. -/
def FormatEffector.is_byte_valid (byte : Nat) : Bool :=
  0x08 ≤ byte && byte ≤ 0x0d

/-- The validity pattern `0x20..=0x7e` of `Printable` in `fe_seq.rs`. -/
def Printable.is_byte_valid (byte : Nat) : Bool :=
  0x20 ≤ byte && byte ≤ 0x7e

/-- The `bytes.iter().copied().enumerate().find_map(..)` search inside
`slice_from_bytes` in `lib.rs`: the index (counted from the accumulator
`idx`) of the first byte failing `valid`, if any. -/
def find_invalid (valid : Nat → Bool) : List Nat → Nat → Option Nat
  | [], _ => none
  | byte :: rest, idx =>
      if valid byte = false then some idx
      else find_invalid valid rest (idx + 1)

/-- `slice_from_bytes` from the `byte_wrapper!` macro in `lib.rs`, generic
over the kind's `is_byte_valid` predicate: `Err` with the index of the first
invalid byte, else `Ok` with the same bytes (reinterpreted by
`slice_from_bytes_unchecked` in the source). -/
def slice_from_bytes (valid : Nat → Bool) (bytes : List Nat) :
    Except Nat (List Nat) :=
  match find_invalid valid bytes 0 with
  | some idx => Except.error idx
  | none => Except.ok bytes

/-- `Csi` from `csi.rs`: parameter bytes, intermediate bytes and one final
byte (all byte values modelled as `Nat`). -/
structure CsiSeq where
  parameter_bytes : List Nat
  intermediate_bytes : List Nat
  final_byte : Nat
deriving DecidableEq, Repr

/-- `Display for Csi` from `csi.rs`, at byte level: `ESC`, `[`, the
parameter bytes, the intermediate bytes, the final byte. -/
def CsiSeq.displayBytes (c : CsiSeq) : List Nat :=
  [escByte, Csi.INTRO_BYTE] ++ c.parameter_bytes ++ c.intermediate_bytes ++
    [c.final_byte]

/-- `FeSeq` from `fe_seq.rs`.  Body slices of the framed variants are lists
of byte values (validated `DcsChar`/`SosChar`/`Printable` wrappers in the
source). -/
inductive FeSeq where
  | Pad
  | HighOctetPreset
  | BreakPermittedHere
  | NoBreakHere
  | Index
  | NextLine
  | StartOfSelArea
  | EndOfSelArea
  | HorizTabSet
  | RightJustify
  | VertTabSet
  | PartLineDown
  | PartLineUp
  | ReverseIndex
  | SingleShift2
  | SingleShift3
  | DeviceControlString (chars : List Nat)
  | PrivateUse1
  | PrivateUse2
  | SetTransmitState
  | CancelCharacter
  | MessageWaiting
  | StartOfProtArea
  | EndOfProtArea
  | StartOfString (chars : List Nat)
  | Sgci
  | Sci
  | Csi (seq : CsiSeq)
  | StringTerminator
  | OsCommand (chars : List Nat)
  | PrivacyMessage (chars : List Nat)
  | AppProgramCommand (chars : List Nat)
deriving DecidableEq, Repr

/-- `FeSeq::kind_byte` from `fe_seq.rs`: the first byte after the escape
character, exactly as the source's match assigns it. -/
def FeSeq.kind_byte : FeSeq → Nat
  | .Pad => 0x80
  | .HighOctetPreset => 0x81
  | .BreakPermittedHere => 0x82
  | .NoBreakHere => 0x83
  | .Index => 0x84
  | .NextLine => 0x85
  | .StartOfSelArea => 0x86
  | .EndOfSelArea => 0x87
  | .HorizTabSet => 0x88
  | .RightJustify => 0x89
  | .VertTabSet => 0x8a
  | .PartLineDown => 0x8b
  | .PartLineUp => 0x8c
  | .ReverseIndex => 0x8d
  | .SingleShift2 => 0x8e
  | .SingleShift3 => 0x8f
  | .DeviceControlString _ => 0x90
  | .PrivateUse1 => 0x91
  | .PrivateUse2 => 0x92
  | .SetTransmitState => 0x93
  | .CancelCharacter => 0x94
  | .MessageWaiting => 0x95
  | .StartOfProtArea => 0x96
  | .EndOfProtArea => 0x97
  | .StartOfString _ => 0x97
  | .Sgci => 0x99
  | .Sci => 0x9a
  | .Csi _ => Csi.INTRO_BYTE
  | .StringTerminator => 0x9c
  | .OsCommand _ => 0x9d
  | .PrivacyMessage _ => 0x9e
  | .AppProgramCommand _ => 0x9f

/-- Measure for the recursion in `FeSeq::write_to` (the framed variants
recursively serialize `StringTerminator`, which has no body). -/
def FeSeq.stSize : FeSeq → Nat
  | .DeviceControlString _ => 1
  | .StartOfString _ => 1
  | .OsCommand _ => 1
  | .PrivacyMessage _ => 1
  | .AppProgramCommand _ => 1
  | _ => 0

/-- `FeSeq::write_to` from `fe_seq.rs`, as the list of bytes written: `ESC`,
the kind byte, then the variant-specific body — the framed variants append
the recursive serialization of `StringTerminator`, the CSI variant writes
the full `Csi` display, and plain variants write nothing further. -/
def FeSeq.write_to (seq : FeSeq) : List Nat :=
  [escByte, seq.kind_byte] ++
    match seq with
    | .DeviceControlString chars => chars ++ FeSeq.StringTerminator.write_to
    | .StartOfString chars => chars ++ FeSeq.StringTerminator.write_to
    | .Csi c => c.displayBytes
    | .OsCommand chars => chars ++ FeSeq.StringTerminator.write_to
    | .PrivacyMessage chars => chars ++ FeSeq.StringTerminator.write_to
    | .AppProgramCommand chars => chars ++ FeSeq.StringTerminator.write_to
    | _ => []
termination_by seq.stSize
decreasing_by all_goals simp [FeSeq.stSize]

/-!  Helper lemmas. -/

/-- Each non-weight field block only appends to the sink. -/
theorem StateChange.fieldStep_fst_append (params : Option (List Char))
    (fb : List Char × Bool) :
    ∃ t, (StateChange.fieldStep params fb).1 = fb.1 ++ t := by
  cases params with
  | none => exact ⟨[], by simp [StateChange.fieldStep]⟩
  | some p =>
    by_cases h : fb.2
    · exact ⟨';' :: p, by simp [StateChange.fieldStep, h]⟩
    · exact ⟨p, by simp [StateChange.fieldStep, h]⟩

/-- The background block only appends to the sink. -/
theorem StateChange.backgroundStep_fst_append (params : Option (List Char))
    (fb : List Char × Bool) :
    ∃ t, (StateChange.backgroundStep params fb).1 = fb.1 ++ t := by
  cases params with
  | none => exact ⟨[], by simp [StateChange.backgroundStep]⟩
  | some p =>
    by_cases h : fb.2
    · exact ⟨';' :: p, by simp [StateChange.backgroundStep, h]⟩
    · exact ⟨p, by simp [StateChange.backgroundStep, h]⟩

/-- The whole chain of non-weight field blocks only appends to the sink
contents produced by the weight block. -/
theorem StateChange.blocks_fst_append (p1 p2 p3 p4 p5 : Option (List Char))
    (f0 : List Char) :
    ∃ t, (StateChange.backgroundStep p5 (StateChange.fieldStep p4
      (StateChange.fieldStep p3 (StateChange.fieldStep p2
        (StateChange.fieldStep p1 (f0, true)))))).1 = f0 ++ t := by
  obtain ⟨t1, h1⟩ := StateChange.fieldStep_fst_append p1 (f0, true)
  obtain ⟨t2, h2⟩ := StateChange.fieldStep_fst_append p2
    (StateChange.fieldStep p1 (f0, true))
  obtain ⟨t3, h3⟩ := StateChange.fieldStep_fst_append p3
    (StateChange.fieldStep p2 (StateChange.fieldStep p1 (f0, true)))
  obtain ⟨t4, h4⟩ := StateChange.fieldStep_fst_append p4
    (StateChange.fieldStep p3 (StateChange.fieldStep p2
      (StateChange.fieldStep p1 (f0, true))))
  obtain ⟨t5, h5⟩ := StateChange.backgroundStep_fst_append p5
    (StateChange.fieldStep p4 (StateChange.fieldStep p3
      (StateChange.fieldStep p2 (StateChange.fieldStep p1 (f0, true)))))
  refine ⟨t1 ++ t2 ++ t3 ++ t4 ++ t5, ?_⟩
  rw [h5, h4, h3, h2, h1]
  simp [List.append_assoc]

/-- `find_invalid` returns `none` exactly when every byte is valid. -/
theorem find_invalid_none_iff (valid : Nat → Bool) (l : List Nat) (k : Nat) :
    find_invalid valid l k = none ↔ ∀ b ∈ l, valid b = true := by
  induction l generalizing k with
  | nil => simp [find_invalid]
  | cons b rest ih =>
    cases hb : valid b with
    | false => simp [find_invalid, hb]
    | true => simp [find_invalid, hb, ih]

/-- `find_invalid` returns `some i` exactly when `i` counts (from the
accumulator `k`) to the first position whose byte fails `valid`. -/
theorem find_invalid_some_iff (valid : Nat → Bool) (l : List Nat) (k i : Nat) :
    find_invalid valid l k = some i ↔
      ∃ m, m < l.length ∧ i = k + m ∧ valid (l.getD m 0) = false ∧
        ∀ j, j < m → valid (l.getD j 0) = true := by
  induction l generalizing k i with
  | nil => simp [find_invalid]
  | cons b rest ih =>
    cases hb : valid b with
    | false =>
      simp only [find_invalid, hb, if_pos]
      constructor
      · intro h
        injection h with h
        exact ⟨0, by simp, by omega, by simpa using hb,
          fun j hj => absurd hj (Nat.not_lt_zero j)⟩
      · rintro ⟨m, hm, rfl, hmv, hmin⟩
        cases m with
        | zero => simp
        | succ m => exact absurd (hmin 0 (Nat.succ_pos m)) (by simp [hb])
    | true =>
      have hcond : ¬(valid b = false) := by simp [hb]
      simp only [find_invalid, if_neg hcond]
      rw [ih]
      constructor
      · rintro ⟨m, hm, rfl, hv, hmin⟩
        refine ⟨m + 1, by simpa using Nat.succ_lt_succ hm, by omega,
          by simpa using hv, fun j hj => ?_⟩
        cases j with
        | zero => simpa using hb
        | succ j => simpa using hmin j (Nat.lt_of_succ_lt_succ hj)
      · rintro ⟨m, hm, hi, hv, hmin⟩
        cases m with
        | zero => exact absurd hv (by simp [hb])
        | succ m =>
          refine ⟨m, Nat.lt_of_succ_lt_succ hm, by omega,
            by simpa using hv, fun j hj => ?_⟩
          simpa using hmin (j + 1) (Nat.succ_lt_succ hj)

/-!  Claim theorems. -/

/-- Claim C1 (code behavior at the failing input): `StateChange::new()` does
serialize to exactly `ESC [ m`, but the general separator invariant fails:
with only the italic field set the serialization is `ESC [ ; 3 m`, carrying
a leading `;` before the first parameter, because the `is_first` flag test
in `Display for StateChange` is inverted. -/
theorem C1_stateChange_fmt_eval :
    StateChange.fmt StateChange.new = [escChar, '[', 'm'] ∧
    StateChange.fmt (StateChange.new.with_italic Italic.On) =
      [escChar, '[', ';', '3', 'm'] := by
  constructor <;> rfl

/-- Claim C2 (code behavior at the failing input): the value
`StateChange::new().with_italic(On).with_background(Rgb(1,2,3))` serializes
to `ESC [ ; 3 4 8 ; 2 ; 1 ; 2 ; 3 m` — a leading `;` before the italic
parameter and no `;` between the italic and background parameters — not the
claimed `ESC [ 3 ; 4 8 ; 2 ; 1 ; 2 ; 3 m`. -/
theorem C2_stateChange_fmt_eval :
    StateChange.fmt
        ((StateChange.new.with_italic Italic.On).with_background
          (Color.Rgb 1 2 3)) =
      [escChar, '[', ';', '3', '4', '8', ';', '2', ';', '1', ';', '2', ';',
        '3', 'm'] := by
  rfl

/-- Claim C3: `StateChange::new().with_foreground(Color::Table(4))
.with_weight(Weight::Bold)` serializes to exactly `ESC [ 2 2 ; 1 ; 3 8 ; 5
; 4 m`, and in general whenever the weight field is set the serialization
starts with the CSI prefix, the clear-all-weight parameter `22` and — for
bold or thin — a `;` and the corresponding on parameter, before anything
contributed by the other fields. -/
theorem C3_weight_first_and_example :
    StateChange.fmt
        ((StateChange.new.with_foreground (Color.Table 4)).with_weight
          Weight.Bold) =
      [escChar, '[', '2', '2', ';', '1', ';', '3', '8', ';', '5', ';', '4',
        'm'] ∧
    ∀ (s : StateChange) (w : Weight), s.weight = some w →
      ∃ rest, s.fmt = Csi.write_begin ++ Sgr.WeightAllOff.write_params_to ++
        (match w with
         | Weight.Bold => ';' :: Sgr.WeightBoldOn.write_params_to
         | Weight.Thin => ';' :: Sgr.WeightThinOn.write_params_to
         | Weight.Regular => []) ++ rest := by
  refine ⟨rfl, ?_⟩
  intro s w hw
  obtain ⟨sw, si, su, sst, sfg, sbg⟩ := s
  dsimp only at hw
  subst hw
  simp only [StateChange.fmt]
  cases w <;>
    · obtain ⟨t, ht⟩ := StateChange.blocks_fst_append _ _ _ _ _ _
      refine ⟨t ++ Csi.FINAL_STR, ?_⟩
      rw [ht]
      simp [List.append_assoc]

/-- Claim C4 (code behavior at the failing input): `write_to` on the framed
`OsCommand` variant emits `ESC`, the kind byte `0x9D`, the body, and then a
String Terminator serialized as `ESC` followed by the raw C1 byte `0x9C` —
not the claimed two bytes `ESC \` (`0x1B 0x5C`). -/
theorem C4_write_to_terminator_eval :
    FeSeq.write_to (FeSeq.OsCommand [0x68, 0x69]) =
      [0x1b, 0x9d, 0x68, 0x69, 0x1b, 0x9c] ∧
    FeSeq.write_to FeSeq.StringTerminator = [0x1b, 0x9c] ∧
    (0x9c : Nat) ≠ 0x5c := by
  refine ⟨?_, ?_, by decide⟩ <;>
    simp [FeSeq.write_to, FeSeq.kind_byte, escByte]

/-- Claim C5 (code behavior at the failing input): `kind_byte` maps
`StartOfString` to `0x97`, the same byte as `EndOfProtArea`, and not to the
ECMA-48 SOS byte `0x98` the claim states — so `kind_byte` is not injective
on constructors. -/
theorem C5_kind_byte_collision_eval :
    (FeSeq.StartOfString []).kind_byte = 0x97 ∧
    FeSeq.EndOfProtArea.kind_byte = 0x97 ∧
    (FeSeq.StartOfString []).kind_byte ≠ 0x98 := by
  refine ⟨rfl, rfl, by decide⟩

/-- Claim C6 (code behavior at the failing input): serializing
`Movement::Absolute` with row 1 and column 1 yields `ESC [ 1 ; 1 J`: its
final byte is the display-erase final byte `J` (the same byte
`EraseDisplay::All` ends with), not the claimed `H`-equivalent
absolute-positioning final byte. -/
theorem C6_absolute_final_byte_eval :
    Movement.fmt (Movement.Absolute 1 1) =
      some [escChar, '[', '1', ';', '1', 'J'] ∧
    EraseDisplay.fmt EraseDisplay.All = [escChar, '[', '2', 'J'] := by
  constructor <;> rfl

/-- Claim C7 (code behavior at the failing input): serializing
`Movement::Relative` with rows `Some(-128)` fails even though no sink write
fails — `i8::abs(-128)` overflows (a panic under checked arithmetic),
modelled as `none`. -/
theorem C7_relative_min_delta_eval :
    Movement.fmt (Movement.Relative (some (-128)) none) = none := by
  rfl

/-- Claim C8: for every byte-wrapper validity predicate and every byte
slice, `slice_from_bytes` returns `Ok` exactly when every byte is valid,
and returns `Err i` exactly when `i` is the zero-based position of the
first invalid byte. -/
theorem C8_slice_from_bytes_first_invalid (valid : Nat → Bool)
    (bytes : List Nat) :
    (slice_from_bytes valid bytes = Except.ok bytes ↔
      ∀ b ∈ bytes, valid b = true) ∧
    (∀ i, slice_from_bytes valid bytes = Except.error i ↔
      (i < bytes.length ∧ valid (bytes.getD i 0) = false ∧
        ∀ j, j < i → valid (bytes.getD j 0) = true)) := by
  have key : ∀ i, (i < bytes.length ∧ valid (bytes.getD i 0) = false ∧
      ∀ j, j < i → valid (bytes.getD j 0) = true) ↔
      find_invalid valid bytes 0 = some i := by
    intro i
    rw [find_invalid_some_iff]
    constructor
    · rintro ⟨h1, h2, h3⟩
      exact ⟨i, h1, by omega, h2, h3⟩
    · rintro ⟨m, hm, hi, hv, hmin⟩
      have hmi : i = m := by omega
      subst hmi
      exact ⟨hm, hv, hmin⟩
  unfold slice_from_bytes
  cases hfi : find_invalid valid bytes 0 with
  | none =>
    refine ⟨by simpa using (find_invalid_none_iff valid bytes 0).mp hfi, ?_⟩
    intro i
    constructor
    · intro h
      cases h
    · intro h
      have := (key i).mp h
      rw [hfi] at this
      cases this
  | some idx =>
    obtain ⟨m, hm, hidx, hv, hmin⟩ :=
      (find_invalid_some_iff valid bytes 0 idx).mp hfi
    have hmi : idx = m := by omega
    subst hmi
    constructor
    · constructor
      · intro h
        cases h
      · intro hall
        have hmem : bytes.getD idx 0 ∈ bytes := by
          rw [List.getD_eq_getElem _ _ hm]
          exact List.getElem_mem hm
        have hvt := hall _ hmem
        rw [hv] at hvt
        cases hvt
    · intro i
      constructor
      · intro h
        injection h with h
        subst h
        exact ⟨hm, hv, hmin⟩
      · intro h
        have := (key i).mp h
        rw [hfi] at this
        injection this with h2
        rw [h2]

/-- `opt_replace_some` keeps `none` and replaces the payload of `some`. -/
theorem opt_replace_some_eq_ite {T : Type} (o : Option T) (v : T) :
    opt_replace_some o v = if o.isSome then some v else none := by
  cases o <;> rfl

/-- Claim C9: in `s.resetter()` each of the six fields is `Some` of the
attribute's neutral value exactly when the corresponding field of `s` is
set, and `None` exactly when it is unset. -/
theorem C9_resetter_fields (s : StateChange) :
    s.resetter.weight =
      (if s.weight.isSome then some Weight.Regular else none) ∧
    s.resetter.italic = (if s.italic.isSome then some Italic.Off else none) ∧
    s.resetter.underline =
      (if s.underline.isSome then some Underline.None else none) ∧
    s.resetter.strikethrough =
      (if s.strikethrough.isSome then some Strikethrough.Off else none) ∧
    s.resetter.foreground =
      (if s.foreground.isSome then some Color.Reset else none) ∧
    s.resetter.background =
      (if s.background.isSome then some Color.Reset else none) := by
  simp [StateChange.resetter, opt_replace_some_eq_ite]

/-- Claim C10, counterexample: at rows `Some(-128)` the serialization of
`Movement::Relative` does not emit the CSI sequence with the delta's
absolute value 128 and final byte `A` that the claim describes (the
`i8::abs` overflow aborts it instead). -/
theorem C10_counterexample :
    Movement.fmt (Movement.Relative (some (-128)) none) ≠
      some (Csi.write_begin ++ natChars 128 ++ ['A']) := by
  decide

/-- Claim C10 as amended: for deltas in the `i8` range other than `-128`,
serializing `Movement::Relative` emits one complete, independent CSI
sequence per set axis — rows first with final byte `A` (negative) or `B`
(otherwise) and the delta's absolute value as parameter, then columns with
`D`/`C` — no bytes at all when both axes are unset, and two separate escape
sequences when both are set. -/
theorem C10_relative_amended (rows columns : Option Int)
    (hr : ∀ x, rows = some x → -128 ≤ x ∧ x ≤ 127 ∧ x ≠ -128)
    (hc : ∀ x, columns = some x → -128 ≤ x ∧ x ≤ 127 ∧ x ≠ -128) :
    Movement.fmt (Movement.Relative rows columns) =
      some ((match rows with
             | some x =>
                 Csi.write_begin ++ natChars x.natAbs ++
                   [if x < 0 then 'A' else 'B']
             | none => []) ++
            (match columns with
             | some x =>
                 Csi.write_begin ++ natChars x.natAbs ++
                   [if x < 0 then 'D' else 'C']
             | none => [])) := by
  cases rows with
  | none =>
    cases columns with
    | none => rfl
    | some y =>
      have hy := (hc y rfl).2.2
      simp [Movement.fmt, move_cursor_delta, i8_abs, hy]
  | some x =>
    have hx := (hr x rfl).2.2
    cases columns with
    | none =>
      simp [Movement.fmt, move_cursor_delta, i8_abs, hx]
    | some y =>
      have hy := (hc y rfl).2.2
      simp [Movement.fmt, move_cursor_delta, i8_abs, hx, hy]

/-- Witness for the amended claim C10 at rows `Some(-3)`, columns `Some(5)`:
two separate CSI sequences, `ESC [ 3 A` then `ESC [ 5 C`. -/
theorem C10_relative_amended_witness :
    Movement.fmt (Movement.Relative (some (-3)) (some 5)) =
      some [escChar, '[', '3', 'A', escChar, '[', '5', 'C'] := by
  rw [C10_relative_amended (some (-3)) (some 5)
    (by
      intro x hx
      injection hx with hx
      subst hx
      decide)
    (by
      intro x hx
      injection hx with hx
      subst hx
      decide)]
  rfl
